/-
A shallow embedding of the dotenv scanner (internal/syntax/scanner/scanner.go,
internal/syntax/syntax.go and internal/syntax/token) together with proofs of
lexical properties of the scanner: termination of scanning, token-offset
invariants, and the concrete token streams produced for representative inputs.

Source text is modelled as the list of its UTF-8 bytes; runes are modelled as
`Int` with `-1` standing for the scanner's `eof` sentinel, matching
`const eof = rune(-1)` in the Go source.  The Go scanner loops
(`takeWhile`, `takeUntil`, the `Scan` loop of `All`) are written with an
explicit structural fuel argument so that every definition is executable by
kernel reduction; the public wrappers supply fuel `len(src) + 1 - pos`, which
is shown sufficient below (every loop iteration advances the cursor by at
least one byte, exactly the argument that bounds the Go loops).
-/
import Mathlib

namespace Dotenv

/-- Position models `syntax.Position` (syntax.go): filename, byte offset,
1-indexed line and 1-indexed start/end columns.  Fields are `Int` because the
Go fields are `int` and may hold any value when a `Position` is constructed
directly. -/
structure Position where
  name : String
  offset : Int
  line : Int
  startCol : Int
  endCol : Int
  deriving DecidableEq, Repr

/-- IsValid models `Position.IsValid` (syntax.go), which returns false when
`Name == "" || Line < 1 || StartCol < 1 || EndCol < 1 ||
(EndCol >= 1 && EndCol < StartCol)` holds and true otherwise. -/
def Position.IsValid (p : Position) : Bool :=
  if p.name = "" ∨ p.line < 1 ∨ p.startCol < 1 ∨ p.endCol < 1 ∨
      (1 ≤ p.endCol ∧ p.endCol < p.startCol) then
    false
  else
    true

/-- Kind models `token.Kind`, the closed enumeration of lexical token kinds
declared in the token package: EOF, Error, Comment, Eq, RawString, String,
Ident, VarInterp, CmdInterp. -/
inductive Kind where
  | eof
  | error
  | comment
  | eq
  | rawString
  | string
  | ident
  | varInterp
  | cmdInterp
  deriving DecidableEq, Repr

/-- Token models `token.Token`: a kind plus a half-open byte range
`[start, endPos)` into the source buffer.  The Go fields are `Start` and
`End`; `End` is rendered `endPos` because `end` is a Lean keyword. -/
structure Token where
  kind : Kind
  start : Nat
  endPos : Nat
  deriving DecidableEq, Repr

/-- Is models `Token.Is` (token package): whether the token's kind is any of
the given kinds, via `slices.Contains(kinds, t.Kind)`. -/
def Token.Is (t : Token) (kinds : List Kind) : Bool :=
  kinds.contains t.kind

/-- Diag records one invocation of the `syntax.ErrorHandler` callback: the
position and the message the scanner passed to the handler. -/
structure Diag where
  pos : Position
  msg : String
  deriving DecidableEq, Repr

/-- decodeRune models Go's `utf8.DecodeRune` as used by `Scanner.next` and
`Scanner.peek`: it decodes the first rune of a byte slice and reports its
width.  Empty input gives `(RuneError, 0)`; an invalid encoding gives
`(RuneError, 1)`.  The accept ranges follow Go's `acceptRanges` table
(0xE0 requires a low byte of at least 0xA0, 0xED at most 0x9F, 0xF0 at least
0x90, 0xF4 at most 0x8F, everything else 0x80..0xBF). -/
def decodeRune (p : List Nat) : Int × Nat :=
  match p with
  | [] => (0xFFFD, 0)
  | b0 :: rest =>
    if b0 < 0x80 then ((b0 : Int), 1)
    else if b0 < 0xC2 then (0xFFFD, 1)
    else if b0 < 0xE0 then
      match rest with
      | b1 :: _ =>
        if 0x80 ≤ b1 ∧ b1 ≤ 0xBF then (((b0 % 32) * 64 + b1 % 64 : Nat), 2)
        else (0xFFFD, 1)
      | [] => (0xFFFD, 1)
    else if b0 < 0xF0 then
      match rest with
      | b1 :: b2 :: _ =>
        if (if b0 = 0xE0 then 0xA0 else 0x80) ≤ b1 ∧
            b1 ≤ (if b0 = 0xED then 0x9F else 0xBF) ∧
            0x80 ≤ b2 ∧ b2 ≤ 0xBF then
          (((b0 % 16) * 4096 + (b1 % 64) * 64 + b2 % 64 : Nat), 3)
        else (0xFFFD, 1)
      | _ => (0xFFFD, 1)
    else if b0 < 0xF5 then
      match rest with
      | b1 :: b2 :: b3 :: _ =>
        if (if b0 = 0xF0 then 0x90 else 0x80) ≤ b1 ∧
            b1 ≤ (if b0 = 0xF4 then 0x8F else 0xBF) ∧
            0x80 ≤ b2 ∧ b2 ≤ 0xBF ∧ 0x80 ≤ b3 ∧ b3 ≤ 0xBF then
          (((b0 % 8) * 262144 + (b1 % 64) * 4096 + (b2 % 64) * 64 + b3 % 64 : Nat), 4)
        else (0xFFFD, 1)
      | _ => (0xFFFD, 1)
    else (0xFFFD, 1)

/-- encodeChar is the UTF-8 encoding of a single code point, used only to
turn Lean string literals into the byte lists the scanner consumes. -/
def encodeChar (n : Nat) : List Nat :=
  if n < 0x80 then [n]
  else if n < 0x800 then [0xC0 + n / 64, 0x80 + n % 64]
  else if n < 0x10000 then
    [0xE0 + n / 4096, 0x80 + (n / 64) % 64, 0x80 + n % 64]
  else
    [0xF0 + n / 262144, 0x80 + (n / 4096) % 64, 0x80 + (n / 64) % 64, 0x80 + n % 64]

/-- strBytes is the UTF-8 byte list of a Lean string, used to present the
concrete test inputs below exactly as Go `[]byte` source buffers. -/
def strBytes (s : String) : List Nat :=
  s.data.foldr (fun c acc => encodeChar c.toNat ++ acc) []

/-- isSpace models Go's `unicode.IsSpace`, i.e. membership in Unicode
White_Space: U+0009..U+000D, U+0020, U+0085, U+00A0, U+1680, U+2000..U+200A,
U+2028, U+2029, U+202F, U+205F, U+3000.  Note `isSpace (-1) = false`: the
Go code relies on `unicode.IsSpace(eof)` being false. -/
def isSpace (r : Int) : Bool :=
  decide ((9 ≤ r ∧ r ≤ 13) ∨ r = 32 ∨ r = 133 ∨ r = 160 ∨ r = 0x1680 ∨
    (0x2000 ≤ r ∧ r ≤ 0x200A) ∨ r = 0x2028 ∨ r = 0x2029 ∨ r = 0x202F ∨
    r = 0x205F ∨ r = 0x3000)

/-- isAlpha models `scanner.isAlpha`: ASCII letters. -/
def isAlpha (r : Int) : Bool :=
  decide ((97 ≤ r ∧ r ≤ 122) ∨ (65 ≤ r ∧ r ≤ 90))

/-- isDigit models `scanner.isDigit`: ASCII digits. -/
def isDigit (r : Int) : Bool :=
  decide (48 ≤ r ∧ r ≤ 57)

/-- isIdent models `scanner.isIdent`: letters, digits, underscore, hyphen. -/
def isIdent (r : Int) : Bool :=
  isAlpha r || isDigit r || decide (r = 95) || decide (r = 45)

/-- isValue models `scanner.isValue`: anything that is neither whitespace nor
the eof sentinel. -/
def isValue (r : Int) : Bool :=
  !isSpace r && decide (r ≠ -1)

/-- quoteRune stands for Go's `%q` formatting of a rune inside the two
`errorf` messages of the scanner.  The precise escaping rules of `%q` are
irrelevant to every property proved below (no theorem inspects a message
built with it); only the fixed prefixes of those messages matter. -/
def quoteRune (r : Int) : String :=
  "'" ++ (Char.ofNat r.toNat).toString ++ "'"

/-- Scanner models the `scanner.Scanner` struct: source bytes, the start
cursor of the current token, the byte cursor, the 1-indexed line and the
byte offset at which the current line started.  The Go field
`handler syntax.ErrorHandler` is modelled by a Bool recording whether a
handler is installed; the invocations themselves are returned as data in
`ScanResult.diags`. -/
structure Scanner where
  handler : Bool
  name : String
  src : List Nat
  start : Nat
  pos : Nat
  line : Nat
  lineOffset : Nat
  deriving DecidableEq, Repr

/-- New models `scanner.New`: both cursors at zero, line 1. -/
def New (name : String) (src : List Nat) (handler : Bool) : Scanner :=
  ⟨handler, name, src, 0, 0, 1, 0⟩

/-- next models `Scanner.next`: decode the rune at `pos`, advance over it,
update the line bookkeeping when the rune is a newline; `-1` at end of
input. -/
def next (s : Scanner) : Int × Scanner :=
  if s.src.length ≤ s.pos then (-1, s)
  else
    let d := decodeRune (s.src.drop s.pos)
    let s1 : Scanner := { s with pos := s.pos + d.2 }
    if d.1 = 10 then (d.1, { s1 with line := s1.line + 1, lineOffset := s1.pos })
    else (d.1, s1)

/-- peek models `Scanner.peek`: the rune at `pos` without advancing. -/
def peek (s : Scanner) : Int :=
  if s.src.length ≤ s.pos then -1
  else (decodeRune (s.src.drop s.pos)).1

/-- rest models `Scanner.rest`: the bytes from `pos` to the end. -/
def rest (s : Scanner) : List Nat :=
  s.src.drop s.pos

/-- discard models `Scanner.discard`: bring the start cursor up to `pos`. -/
def discard (s : Scanner) : Scanner :=
  { s with start := s.pos }

/-- takeN consumes `n` runes through `next`, modelling the
`for range chars { s.next() }` loop inside `Scanner.take`. -/
def takeN (s : Scanner) : Nat → Scanner
  | 0 => s
  | n + 1 => takeN (next s).2 n

/-- take models `Scanner.take`: consume exactly the given characters if they
are the next bytes of the input, otherwise leave the scanner untouched.
Every Go call site passes an ASCII literal (`"xport"`, `""`, `"""`), so the
rune count of the literal equals its byte count `chars.length`. -/
def take (s : Scanner) (chars : List Nat) : Bool × Scanner :=
  if chars.isPrefixOf (rest s) then (true, takeN s chars.length)
  else (false, s)

/-- takeWhileF is `Scanner.takeWhile` with an explicit fuel: consume runes
while the predicate holds of the peeked rune.  The fuel and the end-of-input
guard only cut the (unreachable at every call site: each predicate used
rejects `-1`) infinite Go loop on a predicate that accepts `eof`. -/
def takeWhileF (p : Int → Bool) : Nat → Scanner → Scanner
  | 0, s => s
  | fuel + 1, s =>
    if p (peek s) then
      if s.pos < s.src.length then takeWhileF p fuel (next s).2
      else s
    else s

/-- takeWhile models `Scanner.takeWhile`; fuel `len - pos + 1` is enough
because every iteration advances `pos` by at least one byte. -/
def takeWhile (s : Scanner) (p : Int → Bool) : Scanner :=
  takeWhileF p (s.src.length + 1 - s.pos) s

/-- skip models `Scanner.skip`: `takeWhile` then `discard`. -/
def skip (s : Scanner) (p : Int → Bool) : Scanner :=
  discard (takeWhile s p)

/-- takeUntilF is `Scanner.takeUntil` with an explicit fuel: consume runes
until one of the given runes (every Go call site includes `eof`) is peeked. -/
def takeUntilF (runes : List Int) : Nat → Scanner → Scanner
  | 0, s => s
  | fuel + 1, s =>
    if runes.contains (peek s) then s
    else
      if s.pos < s.src.length then takeUntilF runes fuel (next s).2
      else s

/-- takeUntil models `Scanner.takeUntil`, with the same fuel bound as
`takeWhile`. -/
def takeUntil (s : Scanner) (runes : List Int) : Scanner :=
  takeUntilF runes (s.src.length + 1 - s.pos) s

/-- ScanResult is the observable outcome of one `Scan` call: the returned
token, the scanner state afterwards, and the handler invocations performed
during the call (always empty or a singleton). -/
structure ScanResult where
  tok : Token
  st : Scanner
  diags : List Diag
  deriving Repr

/-- emit models `Scanner.token`: build a token from the current cursors and
reset the start cursor.  No handler call happens. -/
def emit (s : Scanner) (kind : Kind) : ScanResult :=
  ⟨⟨kind, s.start, s.pos⟩, discard s, []⟩

/-- emitError models `Scanner.error`.  Exactly as in the Go code, the Error
token is built (and the start cursor reset) *before* the columns are
computed, so the `s.start` read by the column computation is the
already-reset one and the reported start column always coincides with the
end column.  When no handler is installed nothing further happens. -/
def emitError (s : Scanner) (msg : String) : ScanResult :=
  let r := emit s Kind.error
  if r.st.handler then
    ⟨r.tok, r.st,
      [⟨⟨r.st.name, (r.st.pos : Int), (r.st.line : Int),
          1 + (r.st.start : Int) - (r.st.lineOffset : Int),
          1 + (r.st.pos : Int) - (r.st.lineOffset : Int)⟩, msg⟩]⟩
  else
    ⟨r.tok, r.st, []⟩

/-- scanComment models `Scanner.scanComment`: everything up to the next
newline or end of input is the Comment token. -/
def scanComment (s : Scanner) : ScanResult :=
  emit (takeUntil s [10, -1]) Kind.comment

/-- scanRawString models `Scanner.scanRawString`: scan to the next single
quote; the token range covers only the inner content. -/
def scanRawString (s : Scanner) : ScanResult :=
  let start := s.pos
  let s1 := takeUntil s [39, -1]
  if peek s1 = -1 then emitError s1 "unterminated string literal"
  else
    ⟨⟨Kind.rawString, start, s1.pos⟩, discard (next s1).2, []⟩

/-- scanMultilineString models `Scanner.scanMultilineString` (the opening
three quotes are already consumed): scan to the next double quote, then
require the next three bytes to be exactly three double quotes. -/
def scanMultilineString (s : Scanner) : ScanResult :=
  let start := s.pos
  let s1 := takeUntil s [34, -1]
  if peek s1 = -1 then emitError s1 "unterminated string literal"
  else
    let t := take s1 [34, 34, 34]
    if !t.1 then emitError t.2 "unterminated multiline string"
    else ⟨⟨Kind.string, start, s1.pos⟩, discard t.2, []⟩

/-- scanString models `Scanner.scanString` (the opening quote is already
consumed): two further quotes switch to the multiline rule, otherwise scan
to the closing quote; the token range excludes the quotes. -/
def scanString (s : Scanner) : ScanResult :=
  let t := take s [34, 34]
  if t.1 then scanMultilineString (discard t.2)
  else
    let start := t.2.pos
    let s1 := takeUntil t.2 [34, -1]
    if peek s1 = -1 then emitError s1 "unterminated string literal"
    else
      ⟨⟨Kind.string, start, s1.pos⟩, discard (next s1).2, []⟩

/-- scanExpansion models `Scanner.scanExpansion` (the `$` is already
consumed and is not part of any token): `{`...`}` gives a VarInterp token
covering the name only, `(`...`)` a CmdInterp token covering the command
only, a bare identifier a VarInterp token, anything else a lexical error. -/
def scanExpansion (s : Scanner) : ScanResult :=
  let s0 := discard s
  let n := next s0
  if n.1 = 123 then
    let s2 := discard n.2
    let s3 := takeUntil s2 [125, -1]
    if peek s3 = -1 then emitError s3 "unterminated variable expansion"
    else ⟨⟨Kind.varInterp, s2.pos, s3.pos⟩, discard (next s3).2, []⟩
  else if n.1 = 40 then
    let s2 := discard n.2
    let s3 := takeUntil s2 [41, -1]
    if peek s3 = -1 then emitError s3 "unterminated command expansion"
    else ⟨⟨Kind.cmdInterp, s2.pos, s3.pos⟩, discard (next s3).2, []⟩
  else if isIdent n.1 then
    emit (takeWhile n.2 isIdent) Kind.varInterp
  else
    emitError n.2
      ("unexpected char " ++ quoteRune n.1 ++
        ", '$' must be followed by one of '(' or '\x7b'")

/-- scanIdent models `Scanner.scanIdent`: the leading rune is already
consumed; if the literal text `xport` follows (i.e. the identifier began
with `export`), it is discarded together with any following whitespace,
then a run of identifier runes is emitted as Ident. -/
def scanIdent (s : Scanner) : ScanResult :=
  let t := take s [120, 112, 111, 114, 116]
  let s1 := if t.1 then skip (discard t.2) isSpace else t.2
  emit (takeWhile s1 isIdent) Kind.ident

/-- scanValue models `Scanner.scanValue`: a run of value runes emitted as a
String token. -/
def scanValue (s : Scanner) : ScanResult :=
  emit (takeWhile s isValue) Kind.string

/-- scan models `Scanner.Scan`: skip whitespace, then dispatch on the next
rune exactly as the Go switch does. -/
def scan (s : Scanner) : ScanResult :=
  let s0 := skip s isSpace
  let n := next s0
  if n.1 = -1 then emit n.2 Kind.eof
  else if n.1 = 35 then scanComment n.2
  else if n.1 = 61 then emit n.2 Kind.eq
  else if n.1 = 39 then scanRawString n.2
  else if n.1 = 34 then scanString n.2
  else if n.1 = 36 then scanExpansion n.2
  else if isIdent n.1 then scanIdent n.2
  else if isValue n.1 then scanValue n.2
  else emitError n.2 ("unrecognised character: " ++ quoteRune n.1)

/-- scanAllF is the loop of `Scanner.All` with an explicit fuel: call `scan`
repeatedly, stop after the first token whose kind is Error or EOF, collect
the tokens and the handler invocations. -/
def scanAllF : Nat → Scanner → List Token × List Diag
  | 0, _ => ([], [])
  | fuel + 1, s =>
    let r := scan s
    if r.tok.Is [Kind.error, Kind.eof] then ([r.tok], r.diags)
    else
      let tail := scanAllF fuel r.st
      (r.tok :: tail.1, r.diags ++ tail.2)

/-- All models `Scanner.All`: the full token stream from the current state.
Fuel `len - pos + 1` is enough because every `scan` call that does not
return EOF advances the cursor by at least one byte (proved below). -/
def All (s : Scanner) : List Token × List Diag :=
  scanAllF (s.src.length + 1 - s.pos) s

/-- scanInput scans a whole named input with or without a handler installed:
`slices.Collect(scanner.New(name, src, handler).All())` together with the
handler invocations that occurred. -/
def scanInput (name : String) (src : List Nat) (handler : Bool) :
    List Token × List Diag :=
  All (New name src handler)

/-! Basic facts about rune decoding: a decoded rune is never the `-1`
sentinel, and its width is at least 1 and at most the remaining length,
which is what bounds every scanner loop. -/

theorem decodeRune_snd_le (p : List Nat) : (decodeRune p).2 ≤ p.length := by
  rcases p with _ | ⟨b0, _ | ⟨b1, _ | ⟨b2, _ | ⟨b3, tail⟩⟩⟩⟩ <;>
    (simp only [decodeRune]) <;> (repeat' split) <;> (try simp) <;> omega

theorem decodeRune_snd_pos (p : List Nat) (h : p ≠ []) : 1 ≤ (decodeRune p).2 := by
  rcases p with _ | ⟨b0, _ | ⟨b1, _ | ⟨b2, _ | ⟨b3, tail⟩⟩⟩⟩
  · exact absurd rfl h
  all_goals (simp only [decodeRune]) <;> (repeat' split) <;> (try simp) <;> omega

theorem decodeRune_fst_nonneg (p : List Nat) : 0 ≤ (decodeRune p).1 := by
  rcases p with _ | ⟨b0, _ | ⟨b1, _ | ⟨b2, _ | ⟨b3, tail⟩⟩⟩⟩ <;>
    (simp only [decodeRune]) <;> (repeat' split) <;> (try simp) <;> omega

/-! State-advancement facts about the cursor helpers. -/

/-- MovesOK relates a scanner state to any state a helper legitimately moves
it to: same source buffer, the cursor moved forward, and the cursor still in
bounds if it was in bounds before. -/
def MovesOK (s t : Scanner) : Prop :=
  t.src = s.src ∧ s.pos ≤ t.pos ∧ (s.pos ≤ s.src.length → t.pos ≤ s.src.length)

theorem movesOK_refl (s : Scanner) : MovesOK s s :=
  ⟨rfl, le_refl _, fun h => h⟩

theorem movesOK_trans {s t u : Scanner} (h1 : MovesOK s t) (h2 : MovesOK t u) :
    MovesOK s u := by
  obtain ⟨e1, l1, b1⟩ := h1
  obtain ⟨e2, l2, b2⟩ := h2
  refine ⟨e2.trans e1, l1.trans l2, fun h => ?_⟩
  have := b2 (by rw [e1]; exact b1 h)
  rwa [e1] at this

theorem next_movesOK (s : Scanner) : MovesOK s (next s).2 := by
  by_cases hge : s.src.length ≤ s.pos
  · simp only [next, if_pos hge]
    exact movesOK_refl s
  · have hle := decodeRune_snd_le (s.src.drop s.pos)
    rw [List.length_drop] at hle
    simp only [next, if_neg hge]
    split <;>
      exact ⟨rfl, Nat.le_add_right _ _, fun _ => by
        show s.pos + (decodeRune (s.src.drop s.pos)).2 ≤ s.src.length
        omega⟩

theorem next_start (s : Scanner) : (next s).2.start = s.start := by
  by_cases hge : s.src.length ≤ s.pos
  · simp only [next, if_pos hge]
  · simp only [next, if_neg hge]
    split <;> rfl

theorem next_fst_eq_peek (s : Scanner) : (next s).1 = peek s := by
  by_cases hge : s.src.length ≤ s.pos
  · simp only [next, peek, if_pos hge]
  · simp only [next, peek, if_neg hge]
    split <;> rfl

theorem next_progress (s : Scanner) (h : (next s).1 ≠ -1) :
    s.pos < (next s).2.pos := by
  by_cases hge : s.src.length ≤ s.pos
  · exfalso
    apply h
    simp only [next, if_pos hge]
  · have hlen : 0 < (s.src.drop s.pos).length := by
      rw [List.length_drop]; omega
    have hw := decodeRune_snd_pos (s.src.drop s.pos) (List.length_pos.mp hlen)
    simp only [next, if_neg hge]
    split <;> simp <;> omega

theorem peek_nonneg_of_ne (s : Scanner) (h : peek s ≠ -1) : 0 ≤ peek s := by
  by_cases hge : s.src.length ≤ s.pos
  · exfalso
    apply h
    simp only [peek, if_pos hge]
  · simp only [peek, if_neg hge]
    exact decodeRune_fst_nonneg _

theorem discard_movesOK (s : Scanner) : MovesOK s (discard s) :=
  ⟨rfl, le_refl _, fun h => h⟩

theorem peek_discard (s : Scanner) : peek (discard s) = peek s := rfl

theorem takeWhileF_movesOK (p : Int → Bool) :
    ∀ fuel s, MovesOK s (takeWhileF p fuel s) := by
  intro fuel
  induction fuel with
  | zero => intro s; exact movesOK_refl s
  | succ n ih =>
    intro s
    simp only [takeWhileF]
    split
    · split
      · exact movesOK_trans (next_movesOK s) (ih _)
      · exact movesOK_refl s
    · exact movesOK_refl s

theorem takeWhileF_start (p : Int → Bool) :
    ∀ fuel s, (takeWhileF p fuel s).start = s.start := by
  intro fuel
  induction fuel with
  | zero => intro s; rfl
  | succ n ih =>
    intro s
    simp only [takeWhileF]
    split
    · split
      · rw [ih, next_start]
      · rfl
    · rfl

theorem takeWhileF_peek (p : Int → Bool) (hp : p (-1) = false) :
    ∀ fuel s, s.src.length + 1 - s.pos ≤ fuel →
      p (peek (takeWhileF p fuel s)) = false := by
  intro fuel
  induction fuel with
  | zero =>
    intro s hf
    have hpos : s.src.length < s.pos := by omega
    have : peek s = -1 := by unfold peek; rw [if_pos (by omega)]
    simpa [takeWhileF, this] using hp
  | succ n ih =>
    intro s hf
    simp only [takeWhileF]
    split
    · next hps =>
      split
      · next hlt =>
        have hne : (next s).1 ≠ -1 := by
          rw [next_fst_eq_peek]
          intro hcon
          rw [hcon, hp] at hps
          exact Bool.false_ne_true hps
        have hprog := next_progress s hne
        have hsrc : (next s).2.src = s.src := (next_movesOK s).1
        exact ih _ (by rw [hsrc]; omega)
      · next hge =>
        have : peek s = -1 := by unfold peek; rw [if_pos (by omega)]
        rw [this, hp] at hps
        exact absurd hps Bool.false_ne_true
    · next hps => exact Bool.of_not_eq_true hps

theorem takeWhile_movesOK (s : Scanner) (p : Int → Bool) :
    MovesOK s (takeWhile s p) :=
  takeWhileF_movesOK p _ s

theorem takeWhile_start (s : Scanner) (p : Int → Bool) :
    (takeWhile s p).start = s.start :=
  takeWhileF_start p _ s

theorem takeWhile_peek (s : Scanner) (p : Int → Bool) (hp : p (-1) = false) :
    p (peek (takeWhile s p)) = false :=
  takeWhileF_peek p hp _ s (le_refl _)

theorem takeUntilF_movesOK (runes : List Int) :
    ∀ fuel s, MovesOK s (takeUntilF runes fuel s) := by
  intro fuel
  induction fuel with
  | zero => intro s; exact movesOK_refl s
  | succ n ih =>
    intro s
    simp only [takeUntilF]
    split
    · exact movesOK_refl s
    · split
      · exact movesOK_trans (next_movesOK s) (ih _)
      · exact movesOK_refl s

theorem takeUntilF_start (runes : List Int) :
    ∀ fuel s, (takeUntilF runes fuel s).start = s.start := by
  intro fuel
  induction fuel with
  | zero => intro s; rfl
  | succ n ih =>
    intro s
    simp only [takeUntilF]
    split
    · rfl
    · split
      · rw [ih, next_start]
      · rfl

theorem takeUntil_movesOK (s : Scanner) (runes : List Int) :
    MovesOK s (takeUntil s runes) :=
  takeUntilF_movesOK runes _ s

theorem takeUntil_start (s : Scanner) (runes : List Int) :
    (takeUntil s runes).start = s.start :=
  takeUntilF_start runes _ s

theorem takeN_movesOK : ∀ (n : Nat) (s : Scanner), MovesOK s (takeN s n) := by
  intro n
  induction n with
  | zero => intro s; exact movesOK_refl s
  | succ k ih =>
    intro s
    exact movesOK_trans (next_movesOK s) (ih _)

theorem takeN_start : ∀ (n : Nat) (s : Scanner), (takeN s n).start = s.start := by
  intro n
  induction n with
  | zero => intro s; rfl
  | succ k ih =>
    intro s
    rw [show takeN s (k + 1) = takeN (next s).2 k from rfl, ih, next_start]

theorem take_movesOK (s : Scanner) (chars : List Nat) :
    MovesOK s (take s chars).2 := by
  unfold take
  split
  · exact takeN_movesOK _ s
  · exact movesOK_refl s

theorem take_start (s : Scanner) (chars : List Nat) :
    (take s chars).2.start = s.start := by
  unfold take
  split
  · exact takeN_start _ s
  · rfl

theorem skip_movesOK (s : Scanner) (p : Int → Bool) : MovesOK s (skip s p) :=
  movesOK_trans (takeWhile_movesOK s p) (discard_movesOK _)

theorem skip_start_eq_pos (s : Scanner) (p : Int → Bool) :
    (skip s p).start = (skip s p).pos := rfl

theorem skip_peek (s : Scanner) (p : Int → Bool) (hp : p (-1) = false) :
    p (peek (skip s p)) = false := by
  rw [show skip s p = discard (takeWhile s p) from rfl, peek_discard]
  exact takeWhile_peek s p hp

/-! Invariants of one `Scan` call: the source is untouched, the cursor only
moves forward and stays in bounds, and the emitted token has a well-formed
in-bounds range. -/

/-- StepOK collects the invariants a single scanning routine establishes
from a well-formed entry state. -/
def StepOK (s : Scanner) (r : ScanResult) : Prop :=
  r.st.src = s.src ∧ s.pos ≤ r.st.pos ∧
  (s.pos ≤ s.src.length → r.st.pos ≤ s.src.length) ∧
  (s.start ≤ s.pos → s.pos ≤ s.src.length →
    r.tok.start ≤ r.tok.endPos ∧ r.tok.endPos ≤ s.src.length ∧
    r.st.start ≤ r.st.pos)

theorem stepOK_comp {s t : Scanner} {r : ScanResult}
    (h1 : MovesOK s t) (h2 : t.start ≤ t.pos ∨ t.start = s.start)
    (h3 : StepOK t r) : StepOK s r := by
  obtain ⟨e1, l1, b1⟩ := h1
  obtain ⟨e3, l3, b3, tk⟩ := h3
  refine ⟨e3.trans e1, l1.trans l3, fun h => ?_, fun hs hp => ?_⟩
  · have ht := b3 (by rw [e1]; exact b1 h)
    rwa [e1] at ht
  · have ht1 : t.start ≤ t.pos := by
      rcases h2 with h2 | h2
      · exact h2
      · rw [h2]; exact hs.trans l1
    have ht2 : t.pos ≤ t.src.length := by
      rw [e1]; exact b1 hp
    obtain ⟨a, b, c⟩ := tk ht1 ht2
    rw [e1] at b
    exact ⟨a, b, c⟩

theorem emit_stepOK (s : Scanner) (k : Kind) : StepOK s (emit s k) :=
  ⟨rfl, le_refl _, fun h => h, fun hs hp => ⟨hs, hp, le_refl _⟩⟩

theorem emitError_stepOK (s : Scanner) (msg : String) :
    StepOK s (emitError s msg) := by
  simp only [emitError]
  split <;>
    exact ⟨rfl, le_refl _, fun h => h, fun hs hp => ⟨hs, hp, le_refl _⟩⟩

theorem scanComment_stepOK (s : Scanner) : StepOK s (scanComment s) :=
  stepOK_comp (takeUntil_movesOK s _) (Or.inr (takeUntil_start s _))
    (emit_stepOK _ _)

theorem scanValue_stepOK (s : Scanner) : StepOK s (scanValue s) :=
  stepOK_comp (takeWhile_movesOK s _) (Or.inr (takeWhile_start s _))
    (emit_stepOK _ _)

theorem scanRawString_stepOK (s : Scanner) : StepOK s (scanRawString s) := by
  simp only [scanRawString]
  split
  · exact stepOK_comp (takeUntil_movesOK s _) (Or.inr (takeUntil_start s _))
      (emitError_stepOK _ _)
  · have m1 := takeUntil_movesOK s [39, -1]
    have m2 := next_movesOK (takeUntil s [39, -1])
    have m := movesOK_trans m1 m2
    exact ⟨m.1, m.2.1, m.2.2, fun hs hp => ⟨m1.2.1, m1.2.2 hp, le_refl _⟩⟩

theorem scanMultilineString_stepOK (s : Scanner) :
    StepOK s (scanMultilineString s) := by
  simp only [scanMultilineString]
  split
  · exact stepOK_comp (takeUntil_movesOK s _) (Or.inr (takeUntil_start s _))
      (emitError_stepOK _ _)
  · have m1 := takeUntil_movesOK s [34, -1]
    have m2 := take_movesOK (takeUntil s [34, -1]) [34, 34, 34]
    have m := movesOK_trans m1 m2
    split
    · refine stepOK_comp m (Or.inr ?_) (emitError_stepOK _ _)
      rw [take_start, takeUntil_start]
    · exact ⟨m.1, m.2.1, m.2.2, fun hs hp => ⟨m1.2.1, m1.2.2 hp, le_refl _⟩⟩

theorem scanString_stepOK (s : Scanner) : StepOK s (scanString s) := by
  simp only [scanString]
  split
  · refine stepOK_comp (movesOK_trans (take_movesOK s [34, 34]) (discard_movesOK _))
      (Or.inl (le_refl _)) (scanMultilineString_stepOK _)
  · have m0 := take_movesOK s [34, 34]
    have m1 := takeUntil_movesOK (take s [34, 34]).2 [34, -1]
    have m01 := movesOK_trans m0 m1
    split
    · refine stepOK_comp m01 (Or.inr ?_) (emitError_stepOK _ _)
      rw [takeUntil_start, take_start]
    · have m2 := next_movesOK (takeUntil (take s [34, 34]).2 [34, -1])
      have m := movesOK_trans m01 m2
      refine ⟨m.1, m.2.1, m.2.2, fun hs hp => ⟨m1.2.1, ?_, le_refl _⟩⟩
      have hb : (take s [34, 34]).2.pos ≤ (take s [34, 34]).2.src.length := by
        rw [m0.1]; exact m0.2.2 hp
      have := m1.2.2 hb
      rwa [m0.1] at this

theorem scanExpansion_stepOK (s : Scanner) : StepOK s (scanExpansion s) := by
  simp only [scanExpansion]
  have md : MovesOK s (discard s) := discard_movesOK s
  have mn := next_movesOK (discard s)
  have m0 := movesOK_trans md mn
  have hstart : (next (discard s)).2.start ≤ (next (discard s)).2.pos := by
    rw [next_start]
    exact mn.2.1
  split
  · have m2 := takeUntil_movesOK (discard (next (discard s)).2) [125, -1]
    have m02 := movesOK_trans (movesOK_trans m0 (discard_movesOK _)) m2
    split
    · refine stepOK_comp m02 (Or.inl ?_) (emitError_stepOK _ _)
      rw [takeUntil_start]
      exact m2.2.1
    · have m3 := next_movesOK (takeUntil (discard (next (discard s)).2) [125, -1])
      have m := movesOK_trans m02 m3
      exact ⟨m.1, m.2.1, m.2.2, fun hs hp => ⟨m2.2.1, m02.2.2 hp, le_refl _⟩⟩
  · split
    · have m2 := takeUntil_movesOK (discard (next (discard s)).2) [41, -1]
      have m02 := movesOK_trans (movesOK_trans m0 (discard_movesOK _)) m2
      split
      · refine stepOK_comp m02 (Or.inl ?_) (emitError_stepOK _ _)
        rw [takeUntil_start]
        exact m2.2.1
      · have m3 := next_movesOK (takeUntil (discard (next (discard s)).2) [41, -1])
        have m := movesOK_trans m02 m3
        exact ⟨m.1, m.2.1, m.2.2, fun hs hp => ⟨m2.2.1, m02.2.2 hp, le_refl _⟩⟩
    · split
      · exact stepOK_comp m0 (Or.inl hstart)
          (stepOK_comp (takeWhile_movesOK _ _) (Or.inr (takeWhile_start _ _))
            (emit_stepOK _ _))
      · exact stepOK_comp m0 (Or.inl hstart) (emitError_stepOK _ _)

theorem scanIdent_stepOK (s : Scanner) : StepOK s (scanIdent s) := by
  simp only [scanIdent]
  split
  · refine stepOK_comp
      (movesOK_trans (take_movesOK s _)
        (movesOK_trans (discard_movesOK _) (skip_movesOK _ _)))
      (Or.inl (le_of_eq (skip_start_eq_pos _ _)))
      (stepOK_comp (takeWhile_movesOK _ _) (Or.inr (takeWhile_start _ _))
        (emit_stepOK _ _))
  · refine stepOK_comp (take_movesOK s _) (Or.inr (take_start s _))
      (stepOK_comp (takeWhile_movesOK _ _) (Or.inr (takeWhile_start _ _))
        (emit_stepOK _ _))

theorem scan_stepOK (s : Scanner) : StepOK s (scan s) := by
  simp only [scan]
  have m0 : MovesOK s (next (skip s isSpace)).2 :=
    movesOK_trans (skip_movesOK s isSpace) (next_movesOK _)
  have hstart : (next (skip s isSpace)).2.start ≤ (next (skip s isSpace)).2.pos := by
    rw [next_start, skip_start_eq_pos]
    exact (next_movesOK _).2.1
  split
  · exact stepOK_comp m0 (Or.inl hstart) (emit_stepOK _ _)
  · split
    · exact stepOK_comp m0 (Or.inl hstart) (scanComment_stepOK _)
    · split
      · exact stepOK_comp m0 (Or.inl hstart) (emit_stepOK _ _)
      · split
        · exact stepOK_comp m0 (Or.inl hstart) (scanRawString_stepOK _)
        · split
          · exact stepOK_comp m0 (Or.inl hstart) (scanString_stepOK _)
          · split
            · exact stepOK_comp m0 (Or.inl hstart) (scanExpansion_stepOK _)
            · split
              · exact stepOK_comp m0 (Or.inl hstart) (scanIdent_stepOK _)
              · split
                · exact stepOK_comp m0 (Or.inl hstart) (scanValue_stepOK _)
                · exact stepOK_comp m0 (Or.inl hstart) (emitError_stepOK _ _)

theorem scan_progress (s : Scanner) (h : (scan s).tok.kind ≠ Kind.eof) :
    s.pos < (scan s).st.pos := by
  have hskip := (skip_movesOK s isSpace).2.1
  by_cases hc : (next (skip s isSpace)).1 = -1
  · exfalso
    apply h
    simp only [scan, if_pos hc]
    rfl
  · have hprog := next_progress _ hc
    have hrest : (next (skip s isSpace)).2.pos ≤ (scan s).st.pos := by
      simp only [scan, if_neg hc]
      split
      · exact (scanComment_stepOK _).2.1
      · split
        · exact (emit_stepOK _ _).2.1
        · split
          · exact (scanRawString_stepOK _).2.1
          · split
            · exact (scanString_stepOK _).2.1
            · split
              · exact (scanExpansion_stepOK _).2.1
              · split
                · exact (scanIdent_stepOK _).2.1
                · split
                  · exact (scanValue_stepOK _).2.1
                  · exact (emitError_stepOK _ _).2.1
    omega

/-! The token stream of `All`: with sufficient fuel it always ends in exactly
one terminal (Error or EOF) token, and every token it contains has a
well-formed in-bounds byte range. -/

theorem tokenIs_terminal_iff (t : Token) :
    t.Is [Kind.error, Kind.eof] = true ↔
      (t.kind = Kind.error ∨ t.kind = Kind.eof) := by
  rcases t with ⟨k, a, b⟩
  cases k <;> simp [Token.Is, List.contains]

theorem scanAllF_split :
    ∀ (fuel : Nat) (s : Scanner), s.pos ≤ s.src.length →
      s.src.length + 1 - s.pos ≤ fuel →
      ∃ init t, (scanAllF fuel s).1 = init ++ [t] ∧
        (t.kind = Kind.error ∨ t.kind = Kind.eof) ∧
        ∀ u ∈ init, ¬(u.kind = Kind.error ∨ u.kind = Kind.eof) := by
  intro fuel
  induction fuel with
  | zero =>
    intro s hb hf
    omega
  | succ n ih =>
    intro s hb hf
    simp only [scanAllF]
    by_cases hterm : (scan s).tok.Is [Kind.error, Kind.eof] = true
    · rw [if_pos hterm]
      exact ⟨[], (scan s).tok, rfl, (tokenIs_terminal_iff _).mp hterm, by simp⟩
    · rw [if_neg hterm]
      have hkind : ¬((scan s).tok.kind = Kind.error ∨ (scan s).tok.kind = Kind.eof) :=
        fun h => hterm ((tokenIs_terminal_iff _).mpr h)
      have hne_eof : (scan s).tok.kind ≠ Kind.eof := fun h => hkind (Or.inr h)
      have hprog := scan_progress s hne_eof
      have hstep := scan_stepOK s
      have hsrc := hstep.1
      have hbnd := hstep.2.2.1 hb
      obtain ⟨init, t, heq, hterm', hinit⟩ :=
        ih (scan s).st (by rw [hsrc]; exact hbnd) (by rw [hsrc]; omega)
      refine ⟨(scan s).tok :: init, t, ?_, hterm', ?_⟩
      · show (scan s).tok :: (scanAllF n (scan s).st).1 = (scan s).tok :: init ++ [t]
        rw [heq]
        rfl
      · intro u hu
        rcases List.mem_cons.mp hu with h | h
        · rw [h]
          exact hkind
        · exact hinit u h

theorem scanAllF_bounds :
    ∀ (fuel : Nat) (s : Scanner), s.start ≤ s.pos → s.pos ≤ s.src.length →
      ∀ t ∈ (scanAllF fuel s).1, t.start ≤ t.endPos ∧ t.endPos ≤ s.src.length := by
  intro fuel
  induction fuel with
  | zero =>
    intro s h1 h2 t ht
    simp [scanAllF] at ht
  | succ n ih =>
    intro s h1 h2 t ht
    have hstep := scan_stepOK s
    obtain ⟨ha, hbnd, hc⟩ := hstep.2.2.2 h1 h2
    simp only [scanAllF] at ht
    by_cases hterm : (scan s).tok.Is [Kind.error, Kind.eof] = true
    · rw [if_pos hterm] at ht
      have heq : t = (scan s).tok := by
        simpa using ht
      rw [heq]
      exact ⟨ha, hbnd⟩
    · rw [if_neg hterm] at ht
      have ht' : t ∈ (scan s).tok :: (scanAllF n (scan s).st).1 := ht
      rcases List.mem_cons.mp ht' with h | h
      · rw [h]
        exact ⟨ha, hbnd⟩
      · have hsrc := hstep.1
        have hb2 := hstep.2.2.1 h2
        have hres := ih (scan s).st hc (by rw [hsrc]; exact hb2) t h
        rwa [hsrc] at hres

/-! The claims. -/

/-- C1 (corrected): scanning `NAME=${OTHER}` does NOT yield the seven tokens
Ident, Eq, Dollar, OpenBrace, Ident, CloseBrace, EOF that the spec lists: the
scanner has no Dollar/OpenBrace/CloseBrace token kinds at all, and
`scanExpansion` consumes the whole `${OTHER}` construct as one composite
token, so the stream has four tokens, not seven. -/
theorem c1_counterexample :
    (scanInput "x" (strBytes "NAME=${OTHER}") true).1.length ≠ 7 := by decide

/-- C1 (amended): scanning `NAME=${OTHER}` yields Ident(0,4), Eq(4,5), a
single composite VarInterp token whose byte range (7,12) covers only the
name `OTHER` (the `$`, `{` and `}` are consumed but excluded from every
token), and EOF(13,13); no error handler invocation occurs. -/
theorem c1_expansion_tokens :
    (scanInput "x" (strBytes "NAME=${OTHER}") true).1 =
      [⟨Kind.ident, 0, 4⟩, ⟨Kind.eq, 4, 5⟩, ⟨Kind.varInterp, 7, 12⟩,
        ⟨Kind.eof, 13, 13⟩] ∧
    (scanInput "x" (strBytes "NAME=${OTHER}") true).2 = [] := by decide

/-- C2 (counterexample): the claim says a lone `"` inside a triple-quoted
string does not terminate scanning and an error can arise only when the scan
runs off the end of the input.  On `"""a"bc"""` — whose closing `"""` is
present at the end — the scanner instead stops at the lone quote (byte 4 of
10) and reports "unterminated multiline string" there, so the stream is a
single Error token rather than a String and an EOF. -/
theorem c2_counterexample :
    ((scanInput "x" (strBytes "\"\"\"a\"bc\"\"\"") true).1.map Token.kind ≠
      [Kind.string, Kind.eof]) ∧
    ((scanInput "x" (strBytes "\"\"\"a\"bc\"\"\"") true).1 = [⟨Kind.error, 3, 4⟩]) ∧
    ((scanInput "x" (strBytes "\"\"\"a\"bc\"\"\"") true).2 =
      [⟨⟨"x", 4, 1, 5, 5⟩, "unterminated multiline string"⟩]) := by decide

/-- C2 (amended): while scanning a triple-quoted multiline string the scanner
stops at the first `"` it meets; if that quote is not immediately followed by
two more, it raises "unterminated multiline string" at that point (it does
not continue scanning), and it raises "unterminated string literal" only when
the input ends before any `"` is found; when the first `"` does start a
`"""`, the String token covers the inner content. -/
theorem c2_multiline_errors :
    ((scanInput "x" (strBytes "\"\"\"abc") true).1 = [⟨Kind.error, 3, 6⟩]) ∧
    ((scanInput "x" (strBytes "\"\"\"abc") true).2.map Diag.msg =
      ["unterminated string literal"]) ∧
    ((scanInput "x" (strBytes "\"\"\"ab\"\"\"") true).1 =
      [⟨Kind.string, 3, 5⟩, ⟨Kind.eof, 8, 8⟩]) ∧
    ((scanInput "x" (strBytes "\"\"\"ab\"\"\"") true).2 = []) ∧
    ((scanInput "x" (strBytes "\"\"\"a\"bc\"\"\"") true).1 = [⟨Kind.error, 3, 4⟩]) ∧
    ((scanInput "x" (strBytes "\"\"\"a\"bc\"\"\"") true).2.map Diag.msg =
      ["unterminated multiline string"]) := by decide

/-- C3 (confirmed): for every finite input buffer, repeated `Scan` calls
terminate: the token stream of `All` is a finite list (the scanning
functions are total, with every loop bounded by the strictly decreasing
cursor-to-end distance) that ends in exactly one terminal token — the last
token's kind is Error or EOF and no earlier token's kind is. -/
theorem c3_scan_terminates (name : String) (src : List Nat) (handler : Bool) :
    ∃ init t, (scanInput name src handler).1 = init ++ [t] ∧
      (t.kind = Kind.error ∨ t.kind = Kind.eof) ∧
      ∀ u ∈ init, ¬(u.kind = Kind.error ∨ u.kind = Kind.eof) :=
  scanAllF_split (src.length + 1 - 0) (New name src handler) (Nat.zero_le _)
    (le_refl _)

/-- C4 (confirmed): every token emitted while scanning any input buffer
satisfies `0 ≤ Start ≤ End ≤ len(src)`. -/
theorem c4_token_offsets (name : String) (src : List Nat) (handler : Bool)
    (t : Token) (ht : t ∈ (scanInput name src handler).1) :
    0 ≤ t.start ∧ t.start ≤ t.endPos ∧ t.endPos ≤ src.length := by
  have h := scanAllF_bounds (src.length + 1 - 0) (New name src handler)
    (le_refl _) (Nat.zero_le _) t ht
  exact ⟨Nat.zero_le _, h.1, h.2⟩

/-- Witness for C4 at the input `=` and its Eq token. -/
theorem c4_token_offsets_witness :
    0 ≤ (Token.mk Kind.eq 0 1).start ∧
    (Token.mk Kind.eq 0 1).start ≤ (Token.mk Kind.eq 0 1).endPos ∧
    (Token.mk Kind.eq 0 1).endPos ≤ (strBytes "=").length :=
  c4_token_offsets "x" (strBytes "=") true ⟨Kind.eq, 0, 1⟩ (by decide)

/-- C5 (confirmed): scanning the unterminated raw string `'abc` yields an
Error token; with a handler installed the handler is invoked exactly once,
with the message "unterminated string literal"; without a handler the Error
token is still returned and no invocation happens. -/
theorem c5_unterminated_raw_string :
    ((scanInput "x" (strBytes "'abc") true).1 = [⟨Kind.error, 0, 4⟩]) ∧
    ((scanInput "x" (strBytes "'abc") true).2 =
      [⟨⟨"x", 4, 1, 5, 5⟩, "unterminated string literal"⟩]) ∧
    ((scanInput "x" (strBytes "'abc") false).1 = [⟨Kind.error, 0, 4⟩]) ∧
    ((scanInput "x" (strBytes "'abc") false).2 = []) := by decide

/-- C6 (counterexample): the claim says `export NAME=1` yields the same
token sequence — same kinds and same Start/End byte offsets — as `NAME=1`.
The kinds agree but every offset is shifted by the seven discarded bytes of
`export `, so the two streams differ. -/
theorem c6_counterexample :
    (scanInput "x" (strBytes "export NAME=1") true).1 ≠
      (scanInput "x" (strBytes "NAME=1") true).1 := by decide

/-- C6 (amended): scanning `export NAME=1` yields the same sequence of token
kinds as `NAME=1` (Ident, Eq, Ident, EOF) with the byte offsets shifted past
the discarded `export ` prefix, which produces no token of its own.
Moreover the code does not require whitespace after `export`: any identifier
beginning with that literal text has it discarded, e.g. `exportFOO` scans as
the identifier `FOO` alone. -/
theorem c6_export_discarded :
    ((scanInput "x" (strBytes "export NAME=1") true).1 =
      [⟨Kind.ident, 7, 11⟩, ⟨Kind.eq, 11, 12⟩, ⟨Kind.ident, 12, 13⟩,
        ⟨Kind.eof, 13, 13⟩]) ∧
    ((scanInput "x" (strBytes "NAME=1") true).1 =
      [⟨Kind.ident, 0, 4⟩, ⟨Kind.eq, 4, 5⟩, ⟨Kind.ident, 5, 6⟩,
        ⟨Kind.eof, 6, 6⟩]) ∧
    ((scanInput "x" (strBytes "export NAME=1") true).1.map Token.kind =
      (scanInput "x" (strBytes "NAME=1") true).1.map Token.kind) ∧
    ((scanInput "x" (strBytes "exportFOO") true).1 =
      [⟨Kind.ident, 6, 9⟩, ⟨Kind.eof, 9, 9⟩]) := by decide

/-- C7 (counterexample): the claim says every maximal run of non-whitespace
characters after an `=` is scanned as one single String token.  In `A=B` the
run `B` is emitted as an Ident token (not String), and in `A=foo.bar` the
run `foo.bar` is split into two tokens, Ident(2,5) and String(5,9). -/
theorem c7_counterexample :
    ((scanInput "x" (strBytes "A=B") true).1.map Token.kind =
      [Kind.ident, Kind.eq, Kind.ident, Kind.eof]) ∧
    Kind.ident ≠ Kind.string ∧
    ((scanInput "x" (strBytes "A=foo.bar") true).1 =
      [⟨Kind.ident, 0, 1⟩, ⟨Kind.eq, 1, 2⟩, ⟨Kind.ident, 2, 5⟩,
        ⟨Kind.string, 5, 9⟩, ⟨Kind.eof, 9, 9⟩]) := by decide

/-- C7 (amended): the scanner is purely reactive — a run after `=` becomes a
single String token exactly when its first rune is not end of input, not one
of the dispatch characters `#`, `=`, `'`, `"`, `$`, and not an identifier
rune.  In that case `Scan` emits one String token starting at the
post-whitespace cursor and extending maximally: the rune following the token
fails `isValue` (it is whitespace or end of input), and no handler
invocation occurs.  Runs whose first rune is an identifier rune are emitted
as Ident instead and may split. -/
theorem c7_bare_value_token (s : Scanner)
    (h1 : (next (skip s isSpace)).1 ≠ -1)
    (h2 : (next (skip s isSpace)).1 ≠ 35)
    (h3 : (next (skip s isSpace)).1 ≠ 61)
    (h4 : (next (skip s isSpace)).1 ≠ 39)
    (h5 : (next (skip s isSpace)).1 ≠ 34)
    (h6 : (next (skip s isSpace)).1 ≠ 36)
    (h7 : isIdent ((next (skip s isSpace)).1) = false) :
    (scan s).tok.kind = Kind.string ∧
    (scan s).tok.start = (skip s isSpace).pos ∧
    (scan s).tok.endPos = (takeWhile (next (skip s isSpace)).2 isValue).pos ∧
    isValue (peek (takeWhile (next (skip s isSpace)).2 isValue)) = false ∧
    (scan s).diags = [] := by
  have hval : isValue ((next (skip s isSpace)).1) = true := by
    have hpeek : isSpace (peek (skip s isSpace)) = false :=
      skip_peek s isSpace (by decide)
    rw [next_fst_eq_peek] at h1 ⊢
    simp [isValue, hpeek, h1]
  have hscan : scan s = scanValue (next (skip s isSpace)).2 := by
    simp only [scan]
    rw [if_neg h1, if_neg h2, if_neg h3, if_neg h4, if_neg h5, if_neg h6,
      if_neg (by simp [h7]), if_pos hval]
  rw [hscan]
  refine ⟨rfl, ?_, rfl, takeWhile_peek _ _ (by decide), rfl⟩
  show (takeWhile (next (skip s isSpace)).2 isValue).start = (skip s isSpace).pos
  rw [takeWhile_start, next_start, skip_start_eq_pos]

/-- Witness for C7 (amended) at the input `/ab`, whose first rune `/` is a
value rune but not an identifier rune. -/
theorem c7_bare_value_token_witness :
    (scan (New "x" (strBytes "/ab") true)).tok.kind = Kind.string ∧
    (scan (New "x" (strBytes "/ab") true)).tok.start =
      (skip (New "x" (strBytes "/ab") true) isSpace).pos ∧
    (scan (New "x" (strBytes "/ab") true)).tok.endPos =
      (takeWhile (next (skip (New "x" (strBytes "/ab") true) isSpace)).2
        isValue).pos ∧
    isValue (peek (takeWhile
      (next (skip (New "x" (strBytes "/ab") true) isSpace)).2 isValue)) = false ∧
    (scan (New "x" (strBytes "/ab") true)).diags = [] :=
  c7_bare_value_token (New "x" (strBytes "/ab") true) (by decide) (by decide)
    (by decide) (by decide) (by decide) (by decide) (by decide)

/-- C8 (confirmed): `Position.IsValid` returns false exactly when the name
is empty, or the line is below 1, or either column is below 1, or the end
column is below the start column; it returns true for every other Position
(the Go guard's extra `EndCol >= 1` conjunct is redundant inside the
disjunction). -/
theorem c8_position_isValid_iff (p : Position) :
    p.IsValid = false ↔
      (p.name = "" ∨ p.line < 1 ∨ p.startCol < 1 ∨ p.endCol < 1 ∨
        p.endCol < p.startCol) := by
  unfold Position.IsValid
  split
  · next h =>
    constructor
    · intro _
      rcases h with h | h | h | h | ⟨h1, h2⟩
      · exact Or.inl h
      · exact Or.inr (Or.inl h)
      · exact Or.inr (Or.inr (Or.inl h))
      · exact Or.inr (Or.inr (Or.inr (Or.inl h)))
      · exact Or.inr (Or.inr (Or.inr (Or.inr h2)))
    · intro _
      rfl
  · next h =>
    constructor
    · intro hfalse
      simp at hfalse
    · intro hd
      exfalso
      apply h
      rcases hd with h' | h' | h' | h' | h'
      · exact Or.inl h'
      · exact Or.inr (Or.inl h')
      · exact Or.inr (Or.inr (Or.inl h'))
      · exact Or.inr (Or.inr (Or.inr (Or.inl h')))
      · by_cases he : p.endCol < 1
        · exact Or.inr (Or.inr (Or.inr (Or.inl he)))
        · exact Or.inr (Or.inr (Or.inr (Or.inr ⟨by omega, h'⟩)))

/-- C9 (code_bug evidence): scanning `'abc` with a handler installed, the
Error token's Start is 0 but the Position handed to the handler reports
StartCol = 5 = EndCol.  The claim's formula for StartCol,
`1 + (token start − line start) = 1 + (0 − 0) = 1`, disagrees, because the
Go code computes the columns only after `token()` has already reset
`s.start` to `s.pos`, so the reported start column always collapses onto the
end column. -/
theorem c9_error_columns :
    ((scanInput "x" (strBytes "'abc") true).1.map Token.start = [0]) ∧
    ((scanInput "x" (strBytes "'abc") true).2.map (fun d => d.pos.startCol) =
      [5]) ∧
    ((scanInput "x" (strBytes "'abc") true).2.map (fun d => d.pos.endCol) =
      [5]) ∧
    ((scanInput "x" (strBytes "'abc") true).2.map (fun d => d.pos.startCol) ≠
      (scanInput "x" (strBytes "'abc") true).1.map
        (fun t => (1 : Int) + (t.start : Int) - 0)) := by decide

/-- C10 (confirmed): after whitespace skipping, the rune `Scan` dispatches
on is either end of input or satisfies one of the dispatch predicates: any
rune that is not `-1` and not one of `#`, `=`, `'`, `"`, `$` satisfies
`isIdent` or `isValue` (indeed `isValue` alone, since the skipped-to rune is
never whitespace), so the final `unrecognised character` branch of `Scan` is
unreachable and `Scan` never returns an Error token from its top-level
dispatch. -/
theorem c10_dispatch_total (s : Scanner)
    (h1 : (next (skip s isSpace)).1 ≠ -1)
    (h2 : (next (skip s isSpace)).1 ∉ ([35, 61, 39, 34, 36] : List Int)) :
    isIdent ((next (skip s isSpace)).1) = true ∨
      isValue ((next (skip s isSpace)).1) = true := by
  right
  have hpeek : isSpace (peek (skip s isSpace)) = false :=
    skip_peek s isSpace (by decide)
  rw [next_fst_eq_peek] at h1 ⊢
  simp [isValue, hpeek, h1]

/-- Witness for C10 at the input `A`. -/
theorem c10_dispatch_total_witness :
    isIdent ((next (skip (New "x" (strBytes "A") true) isSpace)).1) = true ∨
      isValue ((next (skip (New "x" (strBytes "A") true) isSpace)).1) = true :=
  c10_dispatch_total (New "x" (strBytes "A") true) (by decide) (by decide)

end Dotenv
